import Mathlib

/-!
Shallow embedding of the line-protocol cache core: the sqlite-backed durable
queue store, the producer insert path, the consumer row readers, and the
upload scheduler loop of LineProtocolCacheUploader.run, together with the
legacy consumer loop of main.py.  Machine-checked statements about these
definitions settle the specification claims.
-/

namespace LPCache

/-- A persisted row: the sqlite rowid paired with the line_protocol text. -/
abbrev Row := Int × String

/-- The undeleted rows of the LineProtocolCache table, listed in ascending
rowid order (the order a full scan of a sqlite rowid table yields them). -/
abbrev Store := List Row

/-- SELECT rowid, line_protocol FROM LineProtocolCache followed by
fetchmany(batch): up to limit rows, oldest (smallest rowid) first. -/
def select_oldest (store : Store) (limit : Nat) : List Row :=
  store.take limit

/-- DELETE FROM LineProtocolCache WHERE rowid = ? for a single id. -/
def delete_one (store : Store) (id : Int) : Store :=
  store.filter (fun r => !(r.1 == id))

/-- executemany of DELETE_ROW over the given ids inside one transaction, as in
LineProtocolCacheUploader._delete_rows and LineProtocolCacheConsumer.delete. -/
def delete_rows (store : Store) (ids : List Int) : Store :=
  ids.foldl delete_one store

/-- The per-destination write calls of _upload_rows: each destination is
written in declared order; a false entry models a write that raises, which
stops the iteration.  Returns (no exception was raised, calls actually made). -/
def write_each : List Bool → List String → Bool × List (List String)
  | [], _ => (true, [])
  | d :: ds, rows =>
    if d then ((write_each ds rows).1, rows :: (write_each ds rows).2)
    else (false, [rows])

/-- LineProtocolCacheUploader._upload_rows: returns immediately when the batch
is empty, otherwise writes it to every destination in order. -/
def upload_rows (dests : List Bool) (rows : List String) : Bool × List (List String) :=
  if rows.isEmpty then (true, []) else write_each dests rows

/-- Observable actions of one scheduler cycle. -/
inductive Action where
  | countQuery (n : Nat)
  | logCatchingUp (n : Nat)
  | waitCatchingUp
  | waitUpload
  | selectRows (rows : List Row)
  | sinkWrite (rows : List String)
  | deleteRows (ids : List Int)
deriving DecidableEq, Repr

/-- The body of one LineProtocolCacheUploader.run cycle after the pacing wait:
select up to batch rows, upload their texts, and delete exactly the selected
rowids only if every destination write succeeded; a raising write propagates
before _delete_rows runs, leaving the store untouched. -/
def cycleStep (batch : Nat) (dests : List Bool) (store : Store) :
    Store × List Action × Bool :=
  match upload_rows dests ((select_oldest store batch).map Prod.snd) with
  | (true, calls) =>
    (delete_rows store ((select_oldest store batch).map Prod.fst),
     Action.selectRows (select_oldest store batch) :: calls.map Action.sinkWrite ++
       [Action.deleteRows ((select_oldest store batch).map Prod.fst)],
     true)
  | (false, calls) =>
    (store,
     Action.selectRows (select_oldest store batch) :: calls.map Action.sinkWrite,
     false)

/-- The count query, the catching-up log, and the pacing wait performed at the
top of each LineProtocolCacheUploader.run cycle: the short catching-up wait
with a logged notice exactly when count exceeds the batch size. -/
def paceTrace (batch : Nat) (store : Store) : List Action :=
  if store.length > batch then
    [Action.countQuery store.length, Action.logCatchingUp store.length,
     Action.waitCatchingUp]
  else
    [Action.countQuery store.length, Action.waitUpload]

/-- How a scheduler run ended. -/
inductive Outcome where
  | stopped
  | sinkFailed
  | fuelOut
deriving DecidableEq, Repr

/-- LineProtocolCacheUploader.run.  sig samples the stop event: sig (2 * k) is
its state at the k-th top-of-loop is_set check and sig (2 * k + 1) its state
when the k-th pacing wait ends.  The code ignores the value returned by
Event.wait, so only the even samples steer control flow: after the wait the
cycle body always runs.  dests k gives the per-destination write results of
cycle k; fuel bounds the number of iterations modelled. -/
def run (fuel : Nat) (sig : Nat → Bool) (dests : Nat → List Bool) (batch : Nat)
    (k : Nat) (store : Store) : Store × List Action × Outcome :=
  match fuel with
  | 0 => (store, [], Outcome.fuelOut)
  | f + 1 =>
    if sig (2 * k) then (store, [], Outcome.stopped)
    else if (cycleStep batch (dests k) store).2.2 then
      ((run f sig dests batch (k + 1) (cycleStep batch (dests k) store).1).1,
       paceTrace batch store ++ (cycleStep batch (dests k) store).2.1 ++
         (run f sig dests batch (k + 1) (cycleStep batch (dests k) store).1).2.1,
       (run f sig dests batch (k + 1) (cycleStep batch (dests k) store).1).2.2)
    else
      ((cycleStep batch (dests k) store).1,
       paceTrace batch store ++ (cycleStep batch (dests k) store).2.1,
       Outcome.sinkFailed)

/-- A value inside a fetched sqlite row, as seen by the Python type checks. -/
inductive PyValue where
  | int (n : Int)
  | str (s : String)
  | pyNone
deriving DecidableEq, Repr

/-- A raw fetched row: a tuple of arbitrary arity and member types. -/
abbrev RawRow := List PyValue

/-- The isinstance checks shared by the row readers: a fetched row is valid
iff it is a 2-tuple of an int rowid and a str line_protocol. -/
def parseRow : RawRow → Option Row
  | [PyValue.int n, PyValue.str s] => some (n, s)
  | _ => none

/-- The row loop of Consumer.get in consumer/consumer.py: raises ValueError at
the first row failing the check, otherwise keeps rows in fetched order. -/
def parse_rows : List RawRow → Except Unit (List Row)
  | [] => Except.ok []
  | r :: rs =>
    match parseRow r with
    | some p => (parse_rows rs).map (fun l => p :: l)
    | none => Except.error ()

/-- Consumer.get: fetchall of the LIMIT-5000 select, then the raising loop. -/
def consumer_get (raws : List RawRow) : Except Unit (List Row) :=
  parse_rows raws

/-- LineProtocolCacheUploader._get_rows: fetchmany(batch) then the raising
loop. -/
def uploader_get_rows (raws : List RawRow) (batch : Nat) : Except Unit (List Row) :=
  parse_rows (raws.take batch)

/-- LineProtocolCacheConsumer.get in consumer.py: logs an error for an invalid
row and keeps going, returning only the rows that pass the check. -/
def legacy_get (raws : List RawRow) : List Row :=
  raws.filterMap parseRow

/-- SELECT MAX(rowid) FROM LineProtocolCache: none on an empty table. -/
def max_rowid (store : Store) : Option Int :=
  match store.map Prod.fst with
  | [] => none
  | i :: is => some (is.foldl max i)

/-- The pacing condition of run_line_protocol_cache_consumer in main.py:
catching up iff max_rowid is present and at least 5000. -/
def legacy_is_catching_up (store : Store) : Bool :=
  match max_rowid store with
  | some m => decide (5000 ≤ m)
  | none => false

/-- The sleep chosen by the legacy main.py loop: 0.5 s when catching up,
5 s otherwise. -/
def legacy_wait (store : Store) : Action :=
  if legacy_is_catching_up store then Action.waitCatchingUp else Action.waitUpload

/-- _consume_and_write_line_protocols in main.py: writes the batch and deletes
its rows only when the fetched batch is nonempty. -/
def consume_and_write (store : Store) : Store × List (List String) :=
  if (select_oldest store 5000).length > 0 then
    (delete_rows store ((select_oldest store 5000).map Prod.fst),
     [(select_oldest store 5000).map Prod.snd])
  else (store, [])

/-- The store together with the next rowid sqlite will assign. -/
structure StoreSt where
  rows : Store
  nextId : Int
deriving DecidableEq, Repr

/-- The rowids sqlite assigns to a freshly inserted batch: consecutive ids
starting at the store's next rowid. -/
def stage_rows (nextId : Int) (recs : List String) : List Row :=
  match recs with
  | [] => []
  | r :: rs => (nextId, r) :: stage_rows (nextId + 1) rs

/-- Producer.put and LineProtocolCache._insert_rows: executemany of INSERT_ROW
inside one with-connection transaction.  commitOk = false models a commit
failure, whose rollback persists none of the records; an empty batch returns
before touching the connection.  Returns the store and whether it committed. -/
def insert_many (s : StoreSt) (recs : List String) (commitOk : Bool) : StoreSt × Bool :=
  if recs.isEmpty then (s, true)
  else if commitOk then
    ({ rows := s.rows ++ stage_rows s.nextId recs,
       nextId := s.nextId + recs.length }, true)
  else (s, false)

/-- The post-stop loop of LineProtocolCache._drain_queue: keep inserting
batches of at most batch_size queued strings until the memory queue is empty.
The batch_size = 0 guard is unreachable because the config asserts it
positive. -/
def final_flush (batch : Nat) (q : List String) (s : StoreSt) : StoreSt :=
  if h1 : q.isEmpty then s
  else if h2 : batch = 0 then s
  else final_flush batch (q.drop batch) (insert_many s (q.take batch) true).1
termination_by q.length
decreasing_by
  simp only [List.length_drop]
  have hq : 0 < q.length := by
    cases q with
    | nil => simp at h1
    | cons a as => simp
  omega

/-- LineProtocolCache shutdown: the final flush of the whole memory queue in
batch_size chunks, after which IS_QUEUE_OPEN is cleared.  Returns the store
and the queue-open flag. -/
def shutdown_drain (batch : Nat) (q : List String) (s : StoreSt) : StoreSt × Bool :=
  (final_flush batch q s, false)

/-- LineProtocolCache.put: raises when the queue is not open, otherwise
enqueues the records into the memory queue. -/
def put (isOpen : Bool) (q : List String) (recs : List String) :
    Except Unit (List String) :=
  if isOpen then Except.ok (q ++ recs) else Except.error ()

/-- Every write call made by write_each carries exactly the given batch. -/
lemma write_each_calls (ds : List Bool) (rows : List String) :
    ∀ c ∈ (write_each ds rows).2, c = rows := by
  induction ds with
  | nil => simp [write_each]
  | cons d ds ih =>
    intro c hc
    by_cases hd : d
    · simp only [write_each, if_pos hd, List.mem_cons] at hc
      rcases hc with hc | hc
      · exact hc
      · exact ih c hc
    · simp only [write_each, if_neg hd, List.mem_cons, List.not_mem_nil, or_false] at hc
      exact hc

/-- Every write call made by _upload_rows carries exactly the given batch. -/
lemma upload_rows_calls (ds : List Bool) (rows : List String) :
    ∀ c ∈ (upload_rows ds rows).2, c = rows := by
  intro c hc
  by_cases he : rows.isEmpty
  · simp [upload_rows, he] at hc
  · exact write_each_calls ds rows c (by simpa [upload_rows, he] using hc)

/-- When any destination write raised, the cycle leaves the store untouched. -/
lemma cycleStep_fail_fst (batch : Nat) (dests : List Bool) (store : Store)
    (h : (cycleStep batch dests store).2.2 = false) :
    (cycleStep batch dests store).1 = store := by
  rcases hup : upload_rows dests ((select_oldest store batch).map Prod.snd) with ⟨ok, calls⟩
  cases ok
  · simp [cycleStep, hup]
  · simp [cycleStep, hup] at h

/-- The raising row loop fails whenever some fetched row is invalid. -/
lemma parse_rows_error (raws : List RawRow) (h : ∃ r ∈ raws, parseRow r = none) :
    parse_rows raws = Except.error () := by
  induction raws with
  | nil => simp at h
  | cons a rs ih =>
    rcases h with ⟨r, hr, hnone⟩
    rcases List.mem_cons.mp hr with rfl | hr2
    · simp [parse_rows, hnone]
    · cases ha : parseRow a with
      | none => simp [parse_rows, ha]
      | some p => simp [parse_rows, ha, ih ⟨r, hr2, hnone⟩, Except.map]

/-- The staged rows carry exactly the given records, in order. -/
lemma stage_rows_map_snd (nextId : Int) (recs : List String) :
    (stage_rows nextId recs).map Prod.snd = recs := by
  induction recs generalizing nextId with
  | nil => simp [stage_rows]
  | cons r rs ih => simp [stage_rows, ih]

/-- One staged row per record. -/
lemma stage_rows_length (nextId : Int) (recs : List String) :
    (stage_rows nextId recs).length = recs.length := by
  induction recs generalizing nextId with
  | nil => simp [stage_rows]
  | cons r rs ih => simp [stage_rows, ih]

/-- Staged rowids start at the next rowid. -/
lemma stage_rows_ge (nextId : Int) (recs : List String) :
    ∀ p ∈ stage_rows nextId recs, nextId ≤ p.1 := by
  induction recs generalizing nextId with
  | nil => simp [stage_rows]
  | cons r rs ih =>
    intro p hp
    rcases List.mem_cons.mp hp with rfl | hp2
    · simp
    · have := ih (nextId + 1) p hp2
      omega

/-- Staged rowids are strictly increasing. -/
lemma stage_rows_pairwise (nextId : Int) (recs : List String) :
    List.Pairwise (fun a b : Row => a.1 < b.1) (stage_rows nextId recs) := by
  induction recs generalizing nextId with
  | nil => simp [stage_rows]
  | cons r rs ih =>
    refine List.Pairwise.cons ?_ (ih (nextId + 1))
    intro p hp
    have := stage_rows_ge (nextId + 1) rs p hp
    simp only
    omega

/-- A committed insert appends exactly the given records. -/
lemma insert_many_commit_snd (s : StoreSt) (recs : List String) :
    (insert_many s recs true).1.rows.map Prod.snd = s.rows.map Prod.snd ++ recs := by
  by_cases he : recs.isEmpty
  · simp [insert_many, he, List.isEmpty_iff.mp he]
  · simp [insert_many, he, stage_rows_map_snd]

/-- Sequentially deleting each id equals one filter over the whole id list. -/
lemma delete_rows_eq_filter (s : Store) (ids : List Int) :
    delete_rows s ids = s.filter (fun r => !(ids.contains r.1)) := by
  induction ids generalizing s with
  | nil => simp [delete_rows]
  | cons i ids ih =>
    have h1 : delete_rows s (i :: ids) = delete_rows (delete_one s i) ids := by
      simp [delete_rows]
    rw [h1, ih, delete_one, List.filter_filter]
    refine List.filter_congr ?_
    intro r hr
    by_cases hri : r.1 = i <;>
      simp [List.contains_cons, Bool.not_or, Bool.and_comm, hri]

/-- The final flush persists the entire memory queue, in order, after the
already-committed rows. -/
lemma final_flush_map (batch : Nat) (q : List String) (s : StoreSt)
    (hb : 0 < batch) :
    (final_flush batch q s).rows.map Prod.snd = s.rows.map Prod.snd ++ q := by
  generalize hn : q.length = n
  induction n using Nat.strong_induction_on generalizing q s with
  | _ n ih =>
    by_cases hq : q.isEmpty
    · rw [final_flush, dif_pos hq]
      simp [List.isEmpty_iff.mp hq]
    · rw [final_flush, dif_neg hq, dif_neg (by omega)]
      have hpos : 0 < q.length := by
        cases q with
        | nil => simp at hq
        | cons a as => simp
      have hlt : (q.drop batch).length < n := by
        rw [← hn]
        simp only [List.length_drop]
        omega
      rw [ih (q.drop batch).length hlt (q.drop batch) _ rfl,
          insert_many_commit_snd]
      simp [List.take_append_drop]

/-- C1: when a destination write of a drain cycle raises, the cycle reports
the failure and performs no deletion: the store is unchanged, no delete action
occurs, every selected row is still present, and the next select_oldest
returns the same batch for the next attempt. -/
theorem sink_failure_keeps_batch (batch : Nat) (dests : List Bool) (store : Store)
    (h : (cycleStep batch dests store).2.2 = false) :
    (cycleStep batch dests store).1 = store ∧
    select_oldest (cycleStep batch dests store).1 batch = select_oldest store batch ∧
    (∀ r ∈ select_oldest store batch, r ∈ (cycleStep batch dests store).1) ∧
    (∀ ids, Action.deleteRows ids ∉ (cycleStep batch dests store).2.1) := by
  have hfst := cycleStep_fail_fst batch dests store h
  refine ⟨hfst, by rw [hfst], ?_, ?_⟩
  · intro r hr
    rw [hfst]
    exact List.take_subset _ _ hr
  · intro ids hmem
    rcases hup : upload_rows dests ((select_oldest store batch).map Prod.snd)
      with ⟨ok, calls⟩
    cases ok
    · simp [cycleStep, hup, List.mem_map] at hmem
    · simp [cycleStep, hup] at h

/-- Witness for C1 at a store of one row and a raising destination. -/
theorem sink_failure_keeps_batch_w :
    (cycleStep 4 [false] [(1, "a=1")]).2.2 = false ∧
    (cycleStep 4 [false] [(1, "a=1")]).1 = [(1, "a=1")] :=
  ⟨by decide, (sink_failure_keeps_batch 4 [false] [(1, "a=1")] (by decide)).1⟩

/-- C8: deleting a non-existent rowid is a no-op, and deleting the ids of A
and then those of B leaves the store exactly as one delete of any list C whose
members are the union of those of A and B. -/
theorem delete_union_noop (s : Store) (A B C : List Int)
    (hC : ∀ x : Int, x ∈ C ↔ x ∈ A ∨ x ∈ B) :
    delete_rows (delete_rows s A) B = delete_rows s C ∧
    ∀ i : Int, (∀ r ∈ s, r.1 ≠ i) → delete_one s i = s := by
  constructor
  · rw [delete_rows_eq_filter, delete_rows_eq_filter, delete_rows_eq_filter,
        List.filter_filter]
    refine List.filter_congr ?_
    intro r hr
    have hu := hC r.1
    by_cases hA : r.1 ∈ A <;> by_cases hB : r.1 ∈ B <;>
      simp [hA, hB, hu, hC]
  · intro i hi
    rw [delete_one]
    refine List.filter_eq_self.mpr ?_
    intro r hr
    simp [hi r hr]

/-- Witness for C8 on a three-row store with overlapping delete sets. -/
theorem delete_union_noop_w :
    delete_rows (delete_rows [((1 : Int), "a"), (2, "b"), (3, "c")] [1])
        [2, 1] =
      delete_rows [((1 : Int), "a"), (2, "b"), (3, "c")] [1, 2] ∧
    ∀ i : Int,
      (∀ r ∈ [((1 : Int), "a"), (2, "b"), (3, "c")], r.1 ≠ i) →
      delete_one [((1 : Int), "a"), (2, "b"), (3, "c")] i =
        [((1 : Int), "a"), (2, "b"), (3, "c")] :=
  delete_union_noop [((1 : Int), "a"), (2, "b"), (3, "c")] [1] [2, 1] [1, 2]
    (by intro x; simp [List.mem_cons]; tauto)

/-- C10: a drain cycle over an empty store is a no-op on the outside world:
the sink is never invoked with the empty batch (zero write calls), the store
is unchanged; the legacy consume path of main.py likewise makes no write. -/
theorem empty_cycle_noop (batch : Nat) (dests : List Bool) :
    (cycleStep batch dests []).1 = [] ∧
    (∀ rows, Action.sinkWrite rows ∉ (cycleStep batch dests []).2.1) ∧
    upload_rows dests [] = (true, []) ∧
    consume_and_write [] = ([], []) := by
  have hup : upload_rows dests ([] : List String) = (true, []) := by
    simp [upload_rows]
  refine ⟨?_, ?_, hup, by simp [consume_and_write, select_oldest]⟩
  · simp [cycleStep, select_oldest, hup, delete_rows]
  · intro rows
    simp [cycleStep, select_oldest, hup]

/-- C4: on a store sorted by rowid, a drain selects at most batch rows; the
selection is a rowid-ascending sublist of the store, oldest-first (older than
everything left behind); every sink write of the cycle carries exactly the
selected records in that order; and the cycle changes the store only by the
final delete of the selected ids, or not at all. -/
theorem drain_batch_ordered (batch : Nat) (dests : List Bool) (store : Store)
    (hs : List.Pairwise (fun a b : Row => a.1 < b.1) store) :
    (select_oldest store batch).length ≤ batch ∧
    List.Pairwise (fun a b : Row => a.1 < b.1) (select_oldest store batch) ∧
    List.Sublist (select_oldest store batch) store ∧
    (∀ x ∈ select_oldest store batch, ∀ y ∈ store.drop batch, x.1 < y.1) ∧
    (∀ rows, Action.sinkWrite rows ∈ (cycleStep batch dests store).2.1 →
      rows = (select_oldest store batch).map Prod.snd) ∧
    ((cycleStep batch dests store).1 = store ∨
     (cycleStep batch dests store).1 =
       delete_rows store ((select_oldest store batch).map Prod.fst)) := by
  refine ⟨?_, ?_, ?_, ?_, ?_, ?_⟩
  · simp [select_oldest, List.length_take_le]
  · exact List.Pairwise.sublist (List.take_sublist batch store) hs
  · exact List.take_sublist batch store
  · have hsplit := hs
    rw [← List.take_append_drop batch store] at hsplit
    exact (List.pairwise_append.mp hsplit).2.2
  · intro rows hmem
    rcases hup : upload_rows dests ((select_oldest store batch).map Prod.snd)
      with ⟨ok, calls⟩
    have hcalls := upload_rows_calls dests ((select_oldest store batch).map Prod.snd)
    rw [hup] at hcalls
    cases ok <;> simp [cycleStep, hup, List.mem_map] at hmem <;>
      exact hcalls rows hmem
  · rcases hup : upload_rows dests ((select_oldest store batch).map Prod.snd)
      with ⟨ok, calls⟩
    cases ok
    · left
      simp [cycleStep, hup]
    · right
      simp [cycleStep, hup]

/-- Witness for C4 on a two-row sorted store with batch limit 1. -/
theorem drain_batch_ordered_w :
    (select_oldest [((1 : Int), "a"), (2, "b")] 1).length ≤ 1 ∧
    List.Pairwise (fun a b : Row => a.1 < b.1)
      (select_oldest [((1 : Int), "a"), (2, "b")] 1) ∧
    List.Sublist (select_oldest [((1 : Int), "a"), (2, "b")] 1)
      [((1 : Int), "a"), (2, "b")] ∧
    (∀ x ∈ select_oldest [((1 : Int), "a"), (2, "b")] 1,
      ∀ y ∈ ([((1 : Int), "a"), (2, "b")] : Store).drop 1, x.1 < y.1) ∧
    (∀ rows, Action.sinkWrite rows ∈ (cycleStep 1 [true] [((1 : Int), "a"), (2, "b")]).2.1 →
      rows = (select_oldest [((1 : Int), "a"), (2, "b")] 1).map Prod.snd) ∧
    ((cycleStep 1 [true] [((1 : Int), "a"), (2, "b")]).1 = [((1 : Int), "a"), (2, "b")] ∨
     (cycleStep 1 [true] [((1 : Int), "a"), (2, "b")]).1 =
       delete_rows [((1 : Int), "a"), (2, "b")]
         ((select_oldest [((1 : Int), "a"), (2, "b")] 1).map Prod.fst)) :=
  drain_batch_ordered 1 [true] [((1 : Int), "a"), (2, "b")] (by decide)

/-- C5 counterexample: on a store holding a valid row and a corrupt row, the
legacy LineProtocolCacheConsumer.get returns normally with the partial result
instead of raising. -/
theorem legacy_get_skips_corrupt :
    legacy_get [[PyValue.int 1, PyValue.str "a"], [PyValue.pyNone]] = [(1, "a")] := by
  rfl

/-- C5 amended: a corrupt fetched row makes the uploader's _get_rows and
Consumer.get of consumer/consumer.py raise, whereas LineProtocolCacheConsumer.get
of consumer.py logs and skips invalid rows, returning exactly the rows that
pass the schema check. -/
theorem corrupt_row_read_raises (raws : List RawRow) (batch : Nat)
    (h : ∃ r ∈ raws.take batch, parseRow r = none) :
    uploader_get_rows raws batch = Except.error () ∧
    consumer_get raws = Except.error () ∧
    ∀ p : Row, p ∈ legacy_get raws ↔ ∃ r ∈ raws, parseRow r = some p := by
  refine ⟨parse_rows_error _ h, ?_, ?_⟩
  · rcases h with ⟨r, hr, hn⟩
    exact parse_rows_error _ ⟨r, List.take_subset _ _ hr, hn⟩
  · intro p
    simp [legacy_get, List.mem_filterMap]

/-- Witness for C5 at a single corrupt row. -/
theorem corrupt_row_read_raises_w :
    uploader_get_rows [[PyValue.pyNone]] 1 = Except.error () ∧
    consumer_get [[PyValue.pyNone]] = Except.error () ∧
    ∀ p : Row, p ∈ legacy_get [[PyValue.pyNone]] ↔
      ∃ r ∈ [[PyValue.pyNone]], parseRow r = some p :=
  corrupt_row_read_raises [[PyValue.pyNone]] 1 (by decide)

/-- C7: an insert batch is all-or-nothing: a committed insert appends exactly
the given records in order (count grows by the full batch) and keeps rowids
strictly increasing; a failed commit leaves the store exactly as it was; the
row count never reflects a partial batch. -/
theorem insert_many_atomic (s : StoreSt) (recs : List String) (ok : Bool)
    (hinv : ∀ r ∈ s.rows, r.1 < s.nextId) :
    ((insert_many s recs ok).2 = true →
      (insert_many s recs ok).1.rows.map Prod.snd = s.rows.map Prod.snd ++ recs) ∧
    ((insert_many s recs ok).2 = false → (insert_many s recs ok).1 = s) ∧
    ((insert_many s recs ok).1.rows.length = s.rows.length + recs.length ∨
     (insert_many s recs ok).1.rows.length = s.rows.length) ∧
    (List.Pairwise (fun a b : Row => a.1 < b.1) s.rows →
      List.Pairwise (fun a b : Row => a.1 < b.1) (insert_many s recs ok).1.rows) := by
  by_cases he : recs.isEmpty
  · have hre : recs = [] := List.isEmpty_iff.mp he
    subst hre
    simp [insert_many]
  · cases ok with
    | false => simp [insert_many, he]
    | true =>
      refine ⟨fun _ => insert_many_commit_snd s recs, ?_, ?_, ?_⟩
      · intro hfalse
        simp [insert_many, he] at hfalse
      · left
        simp [insert_many, he, stage_rows_length]
      · intro hp
        simp only [insert_many, he, Bool.false_eq_true, if_false, if_true]
        rw [List.pairwise_append]
        exact ⟨hp, stage_rows_pairwise _ _,
          fun a ha b hb => lt_of_lt_of_le (hinv a ha) (stage_rows_ge _ _ b hb)⟩

/-- Witness for C7 at a one-row store and a two-record committed batch. -/
theorem insert_many_atomic_w :
    ((insert_many ⟨[((1 : Int), "a")], 2⟩ ["b", "c"] true).2 = true →
      (insert_many ⟨[((1 : Int), "a")], 2⟩ ["b", "c"] true).1.rows.map Prod.snd =
        ([((1 : Int), "a")] : Store).map Prod.snd ++ ["b", "c"]) ∧
    ((insert_many ⟨[((1 : Int), "a")], 2⟩ ["b", "c"] true).2 = false →
      (insert_many ⟨[((1 : Int), "a")], 2⟩ ["b", "c"] true).1 = ⟨[((1 : Int), "a")], 2⟩) ∧
    ((insert_many ⟨[((1 : Int), "a")], 2⟩ ["b", "c"] true).1.rows.length =
        ([((1 : Int), "a")] : Store).length + (["b", "c"] : List String).length ∨
     (insert_many ⟨[((1 : Int), "a")], 2⟩ ["b", "c"] true).1.rows.length =
        ([((1 : Int), "a")] : Store).length) ∧
    (List.Pairwise (fun a b : Row => a.1 < b.1) ([((1 : Int), "a")] : Store) →
      List.Pairwise (fun a b : Row => a.1 < b.1)
        (insert_many ⟨[((1 : Int), "a")], 2⟩ ["b", "c"] true).1.rows) :=
  insert_many_atomic ⟨[((1 : Int), "a")], 2⟩ ["b", "c"] true (by decide)

/-- C9: on scoped shutdown the background agent drains and persists the whole
memory queue, in order, before the queue-open flag is cleared; afterwards any
put fails with the queue-closed error. -/
theorem shutdown_flushes_and_closes (batch : Nat) (q : List String) (s : StoreSt)
    (hb : 0 < batch) :
    (shutdown_drain batch q s).1.rows.map Prod.snd = s.rows.map Prod.snd ++ q ∧
    (shutdown_drain batch q s).2 = false ∧
    ∀ qq recs : List String,
      put (shutdown_drain batch q s).2 qq recs = Except.error () := by
  refine ⟨final_flush_map batch q s hb, rfl, ?_⟩
  intro qq recs
  simp [put, shutdown_drain]

/-- Witness for C9: three queued records flushed in batches of two. -/
theorem shutdown_flushes_and_closes_w :
    (shutdown_drain 2 ["x", "y", "z"] ⟨[], 1⟩).1.rows.map Prod.snd =
      ([] : Store).map Prod.snd ++ ["x", "y", "z"] ∧
    (shutdown_drain 2 ["x", "y", "z"] ⟨[], 1⟩).2 = false ∧
    ∀ qq recs : List String,
      put (shutdown_drain 2 ["x", "y", "z"] ⟨[], 1⟩).2 qq recs = Except.error () :=
  shutdown_flushes_and_closes 2 ["x", "y", "z"] ⟨[], 1⟩ (by decide)

/-- The stop event history where the signal fires during the first pacing
wait: unset at the first top-of-loop check (sample 0), set from the end of
that wait (sample 1) onwards. -/
def sigEx : Nat → Bool := fun t => decide (1 ≤ t)

/-- One destination whose writes always succeed. -/
def destsOk : Nat → List Bool := fun _ => [true]

/-- A store holding a single cached line protocol. -/
def store1 : Store := [(1, "a=1")]

/-- C2 counterexample: the signal fires during the first pacing wait (it is
set at sample 1, the end of that wait), yet the scheduler still performs that
cycle's sink write and delete — the drain is not skipped; only the next
top-of-loop check stops the loop. -/
theorem stop_during_wait_still_drains :
    sigEx 0 = false ∧ sigEx 1 = true ∧
    Action.sinkWrite ["a=1"] ∈ (run 2 sigEx destsOk 4 0 store1).2.1 ∧
    Action.deleteRows [1] ∈ (run 2 sigEx destsOk 4 0 store1).2.1 ∧
    (run 2 sigEx destsOk 4 0 store1).1 = [] := by
  decide

/-- C2 amended: when the stop signal is set by the end of cycle k's pacing
wait, the scheduler still performs cycle k's drain and then stops at the next
top-of-loop check: the run from cycle k is exactly that one cycle followed by
the stop (or by the propagated sink failure), with no further select, write,
or delete. -/
theorem signal_during_wait_one_more_drain (f k : Nat) (sig : Nat → Bool)
    (dests : Nat → List Bool) (batch : Nat) (store : Store)
    (mono : ∀ i j : Nat, i ≤ j → sig i = true → sig j = true)
    (h0 : sig (2 * k) = false) (h1 : sig (2 * k + 1) = true) :
    run (f + 2) sig dests batch k store =
      ((cycleStep batch (dests k) store).1,
       paceTrace batch store ++ (cycleStep batch (dests k) store).2.1,
       if (cycleStep batch (dests k) store).2.2 then Outcome.stopped
       else Outcome.sinkFailed) := by
  have h2 : sig (2 * (k + 1)) = true := mono (2 * k + 1) (2 * (k + 1)) (by omega) h1
  by_cases hok : (cycleStep batch (dests k) store).2.2
  · simp [run, h0, hok, h2]
  · simp [run, h0, hok]

/-- Witness for C2 amended: one row, an always-succeeding destination, and the
signal firing during the first wait. -/
theorem signal_during_wait_one_more_drain_w :
    run 2 sigEx destsOk 4 0 store1 =
      ((cycleStep 4 (destsOk 0) store1).1,
       paceTrace 4 store1 ++ (cycleStep 4 (destsOk 0) store1).2.1,
       if (cycleStep 4 (destsOk 0) store1).2.2 then Outcome.stopped
       else Outcome.sinkFailed) :=
  signal_during_wait_one_more_drain 0 0 sigEx destsOk 4 store1
    (by
      intro i j hij hi
      simp only [sigEx, decide_eq_true_eq] at hi ⊢
      omega)
    (by decide) (by decide)

/-- The stop signal that never fires. -/
def sigOff : Nat → Bool := fun _ => false

/-- One destination whose writes always raise. -/
def destsBad : Nat → List Bool := fun _ => [false]

/-- C3 counterexample: with a failing remote sink and the stop signal never
set, the scheduler loop does not continue past the failure: despite remaining
fuel it halts after the first cycle with the sink failure propagated and the
rows undeleted — the failure is not caught at the scheduler boundary. -/
theorem sink_failure_not_caught :
    (run 5 sigOff destsBad 4 0 store1).2.2 = Outcome.sinkFailed ∧
    (run 5 sigOff destsBad 4 0 store1).1 = store1 := by
  decide

/-- C3 amended: a remote sink write failure propagates out of the scheduler
loop and terminates it, with the batch's rows left undeleted for a later
attempt; the retry only happens because the legacy entry point restarts the
whole consumer loop after its bare except catches the exception — a catch
that swallows storage failures as well and logs nothing. -/
theorem sink_failure_propagates (f : Nat) (sig : Nat → Bool)
    (dests : Nat → List Bool) (batch : Nat) (store : Store)
    (h0 : sig 0 = false)
    (hfail : (cycleStep batch (dests 0) store).2.2 = false) :
    run (f + 1) sig dests batch 0 store =
      (store, paceTrace batch store ++ (cycleStep batch (dests 0) store).2.1,
       Outcome.sinkFailed) := by
  have hfst := cycleStep_fail_fst batch (dests 0) store hfail
  simp [run, h0, hfail, hfst]

/-- Witness for C3 amended at a one-row store and a raising destination. -/
theorem sink_failure_propagates_w :
    run 1 sigOff destsBad 4 0 store1 =
      (store1, paceTrace 4 store1 ++ (cycleStep 4 (destsBad 0) store1).2.1,
       Outcome.sinkFailed) :=
  sink_failure_propagates 0 sigOff destsBad 4 store1 rfl (by decide)

/-- Ten cached rows with rowids 1 through 10. -/
def store10 : Store :=
  [(1, "r1"), (2, "r2"), (3, "r3"), (4, "r4"), (5, "r5"),
   (6, "r6"), (7, "r7"), (8, "r8"), (9, "r9"), (10, "r10")]

/-- C6 counterexample: with batch limit 4 and 10 rows present the backlog
count exceeds the limit, yet the legacy main.py scheduler is not catching up:
it paces on max_rowid ≥ 5000, takes the long steady-state sleep, and consults
no row count. -/
theorem legacy_pacing_ignores_count :
    4 < store10.length ∧
    legacy_is_catching_up store10 = false ∧
    legacy_wait store10 = Action.waitUpload := by
  decide

/-- C6 amended: each LineProtocolCacheUploader.run cycle queries count() and,
exactly when the count exceeds the batch size, logs a catching-up notice with
the current count and takes the short catching-up wait, otherwise the long
upload wait; the legacy main.py loop instead paces on max_rowid ≥ 5000. -/
theorem run_pacing_on_count (f : Nat) (sig : Nat → Bool)
    (dests : Nat → List Bool) (batch : Nat) (store : Store)
    (h0 : sig 0 = false) :
    (∃ rest, (run (f + 1) sig dests batch 0 store).2.1 =
      (if store.length > batch then
        [Action.countQuery store.length, Action.logCatchingUp store.length,
         Action.waitCatchingUp]
       else [Action.countQuery store.length, Action.waitUpload]) ++ rest) ∧
    (∀ m : Int, max_rowid store = some m →
      (legacy_wait store = Action.waitCatchingUp ↔ 5000 ≤ m)) := by
  constructor
  · by_cases hok : (cycleStep batch (dests 0) store).2.2
    · exact ⟨(cycleStep batch (dests 0) store).2.1 ++
        (run f sig dests batch 1 (cycleStep batch (dests 0) store).1).2.1,
        by simp [run, h0, hok, paceTrace, List.append_assoc]⟩
    · exact ⟨(cycleStep batch (dests 0) store).2.1,
        by simp [run, h0, hok, paceTrace]⟩
  · intro m hm
    by_cases h5 : (5000 : Int) ≤ m <;>
      simp [legacy_wait, legacy_is_catching_up, hm, h5]

/-- Witness for C6 amended at the ten-row store with batch limit 4. -/
theorem run_pacing_on_count_w :
    (∃ rest, (run 1 sigOff destsOk 4 0 store10).2.1 =
      (if store10.length > 4 then
        [Action.countQuery store10.length, Action.logCatchingUp store10.length,
         Action.waitCatchingUp]
       else [Action.countQuery store10.length, Action.waitUpload]) ++ rest) ∧
    (∀ m : Int, max_rowid store10 = some m →
      (legacy_wait store10 = Action.waitCatchingUp ↔ 5000 ≤ m)) :=
  run_pacing_on_count 0 sigOff destsOk 4 store10 rfl

end LPCache
